import Mathlib

/-
  Verification development for the connection pool implemented in
  `src/lib/pool.js` (mariadb-connector-nodejs fork, single-file pool).

  The pool runs on a single-threaded cooperative scheduler: every
  synchronous block of `pool.js` mutates the pool state atomically, and the
  asynchronous boundaries (connect, ping, query, rollback, `process.nextTick`,
  timers) are the only interleaving points.  We embed each synchronous block
  as a pure Lean function on an explicit pool state, and the whole pool as a
  labelled transition system whose events are exactly those blocks.

  The promise flavour of the pool (`useCallback = false`) is embedded; the
  callback flavour duplicates the same state transitions with callbacks.
-/

namespace MariaPool

/-- A pooled connection, as used by `pool.js`.  `threadId` is the key of the
`activeConnections` object and stands for the JS reference identity of the
connection (each connection has a unique server thread id).  `lastUse` is the
millisecond timestamp stamped on release (`new Date(0)` is `0`).  `valid`
models the synchronous `conn.isValid()` flag, and `pingOk` models whether the
asynchronous `conn.ping()` probe of this connection succeeds. -/
structure Conn where
  threadId : Nat
  lastUse : Int
  valid : Bool
  pingOk : Bool
  deriving DecidableEq

/-- An error value as produced by `Errors.createError`. -/
structure PoolErr where
  msg : String
  fatal : Bool
  sqlState : String
  errno : Nat
  deriving DecidableEq

/-- Modelled from the spec: `Errors.createError` lives in
`lib/misc/errors.js`, which is not under `src/`.  Per the spec's error
taxonomy (§7, §6 "stable error identifiers"), it builds an error value from
the message, fatality flag, sql state and error number given at the call
site; the `info` and trailing arguments passed by `pool.js` are
`null`/`undefined`/`false` and contribute nothing. -/
def createError (msg : String) (fatal : Bool) (sqlState : String) (errno : Nat) : PoolErr :=
  ⟨msg, fatal, sqlState, errno⟩

/-- Modelled from the spec: the stable "pool closed" error identifier
(`Errors.ER_POOL_ALREADY_CLOSED`, defined outside `src/`).  Only its
distinctness from other error numbers matters. -/
def ER_POOL_ALREADY_CLOSED : Nat := 45026

/-- Modelled from the spec: the stable "acquire timeout" error identifier
(`Errors.ER_GET_CONNECTION_TIMEOUT`, defined outside `src/`). -/
def ER_GET_CONNECTION_TIMEOUT : Nat := 45028

/-- The error built at `pool.js:114-124` and `pool.js:43-53`. -/
def poolClosedError : PoolErr :=
  createError "pool is closed" false "HY000" ER_POOL_ALREADY_CLOSED

/-- The error built at `pool.js:236-244`. -/
def acquireTimeoutError : PoolErr :=
  createError "retrieve connection from pool timeout" false "HY000" ER_GET_CONNECTION_TIMEOUT

/-- The recognized pool options (`opts` in `pool.js`): `connectionLimit`,
`acquireTimeout` (ms) and `minDelayValidation` (ms; `<= 0` means "always
probe"). -/
structure Opts where
  connectionLimit : Nat
  acquireTimeout : Int
  minDelayValidation : Int
  deriving DecidableEq

/-- A queued acquisition request (the `task` object of `pool.js:142-148`).
`id` stands for the JS reference identity of the task object; `timeout` is
the absolute deadline `Date.now() + opts.acquireTimeout`; `sql`/`values` the
optional query payload. -/
structure PoolTask where
  id : Nat
  timeout : Int
  sql : Option String
  values : Option String
  deriving DecidableEq

/-- Deleting a key from the `activeConnections` object
(`delete activeConnections[id]`). -/
def activeDelete (active : List Conn) (id : Nat) : List Conn :=
  active.filter (fun a => a.threadId ≠ id)

/-- Storing a connection in the `activeConnections` object
(`activeConnections[conn.threadId] = conn`): a JS object keyed by
`threadId` holds at most one entry per key, so the store overwrites. -/
def activeInsert (active : List Conn) (c : Conn) : List Conn :=
  activeDelete active c.threadId ++ [c]

/-- The whole mutable state closed over by the `Pool` constructor.
`idle` is the `idleConnections` denque (head = front), `active` the
`activeConnections` object, `tasks` the `taskQueue` denque, `timer` the
`firstTaskTimeout` timer together with the task it was armed for.
`scheduledCreation` records a pending `process.nextTick(addConnectionToPool)`
from `checkPoolSize` (`pool.js:416`), and `connecting` records an in-flight
`conn.connect()` (`pool.js:269-271`). -/
structure PoolSt where
  closed : Bool
  connectionInCreation : Bool
  scheduledCreation : Bool
  connecting : Bool
  idle : List Conn
  active : List Conn
  tasks : List PoolTask
  timer : Option PoolTask
  deriving DecidableEq

/-- Number of connections currently lent out (`this.activeConnections()`). -/
def PoolSt.activeCount (s : PoolSt) : Nat := s.active.length

/-- Number of idle connections (`this.idleConnections()`). -/
def PoolSt.idleCount (s : PoolSt) : Nat := s.idle.length

/-- Total connection count (`this.totalConnections()`, `pool.js:80-82`). -/
def PoolSt.totalConnections (s : PoolSt) : Nat := s.activeCount + s.idleCount

/-- State of a freshly constructed pool (`pool.js:478-489`). -/
def initSt : PoolSt :=
  ⟨false, false, false, false, [], [], [], none⟩

/-- State right after `this.activatePool()` (`pool.js:260-262`): the factory
calls it once on the freshly built, empty pool; `addConnectionToPoolPromise`
synchronously sets `connectionInCreation` and starts `conn.connect()`. -/
def activatedSt : PoolSt :=
  ⟨false, true, false, true, [], [], [], none⟩

/-- The staleness test of `pool.js:165`:
`opts.minDelayValidation <= 0 || Date.now() - conn.lastUse > opts.minDelayValidation`.
When it holds the pool performs a full `ping` probe; otherwise it only
consults `conn.isValid()`. -/
def needsProbe (now minDelay : Int) (c : Conn) : Bool :=
  minDelay ≤ 0 ∨ now - c.lastUse > minDelay

/-- Whether a candidate passes validation (`pool.js:165-194`): the ping
outcome when probed, the cheap `isValid()` flag otherwise. -/
def passesValidation (now minDelay : Int) (c : Conn) : Bool :=
  if needsProbe now minDelay c then c.pingOk else c.valid

/-- Result of the recursive `getIdleValidConnection` (`pool.js:158-195`).
`found` is the resolved connection (or `none` for the `Promise.reject(null)`
exhaustion case), `idle`/`active` the final collections, `discarded` the
candidates evicted during validation (in front-to-back order), and
`destroyed` every connection on which this code path invoked
`destroy`/`end` — the source invokes neither on a failed candidate
(`pool.js:170,182,191`: it only deletes the entry from `activeConnections`
and recurses), so this list stays empty. -/
structure GivcResult where
  found : Option Conn
  idle : List Conn
  active : List Conn
  discarded : List Conn
  destroyed : List Conn
  deriving DecidableEq

/-- The validation loop `getIdleValidConnection` (`pool.js:158-195`),
promise flavour: shift the idle front, store it in `activeConnections`
speculatively, probe it (full `ping` when stale, `isValid()` otherwise);
on failure delete it from `activeConnections` and recurse on the rest. -/
def getIdleValidConnection (now minDelay : Int) :
    List Conn → List Conn → GivcResult
  | [], active => ⟨none, [], active, [], []⟩
  | c :: rest, active =>
    let active1 := activeInsert active c
    if passesValidation now minDelay c then
      ⟨some c, rest, active1, [], []⟩
    else
      let r := getIdleValidConnection now minDelay rest (activeDelete active1 c.threadId)
      { r with discarded := c :: r.discarded }

/-- Outcome of `handleRequest` (`pool.js:112-156`): an immediate rejection
(`Promise.reject`), an immediately fulfilled acquisition (a validated idle
connection, possibly then fed to `useConnection`), or a parked waiter. -/
inductive ReqOutcome where
  | rejected (e : PoolErr)
  | fulfilled (c : Conn)
  | queued (t : PoolTask)
  deriving DecidableEq

/-- The growth guard of `pool.js:137`:
`!connectionInCreation && opts.connectionLimit > pool.totalConnections()`. -/
def growthGuard (opts : Opts) (s : PoolSt) : Bool :=
  !s.connectionInCreation && decide (opts.connectionLimit > s.totalConnections)

theorem growthGuard_eq_true {opts : Opts} {s : PoolSt} :
    growthGuard opts s = true ↔
      s.connectionInCreation = false ∧ s.totalConnections < opts.connectionLimit := by
  simp [growthGuard]

/-- The miss branch of `handleRequest` (`pool.js:134-153`): if no creation is
in flight and the limit is not reached, `addConnectionToPool` runs
synchronously up to `conn.connect()` (it sets `connectionInCreation` at
`pool.js:268` and starts connecting); then the demand is stacked as a task
with deadline `now + opts.acquireTimeout`, and the single timer is armed for
it only when no timer exists (`pool.js:149-151`). -/
def missUpdate (opts : Opts) (now : Int) (tid : Nat) (sql values : Option String)
    (s : PoolSt) : PoolSt :=
  let s2 := if growthGuard opts s
    then { s with connectionInCreation := true, connecting := true }
    else s
  let t : PoolTask := ⟨tid, now + opts.acquireTimeout, sql, values⟩
  { s2 with tasks := s2.tasks ++ [t], timer := some (s2.timer.getD t) }

/-- The request entry point `handleRequest` (`pool.js:112-156`), used by both
`getConnection` and `query`: reject with the pool-closed error when `closed`
(no state change, nothing enqueued), otherwise try `getIdleValidConnection`;
on a hit hand out the connection, on a miss run the miss branch.  `tid` is
the identity of the task object allocated for a miss. -/
def handleRequest (opts : Opts) (now : Int) (tid : Nat) (sql values : Option String)
    (s : PoolSt) : ReqOutcome × PoolSt :=
  if s.closed then (.rejected poolClosedError, s)
  else
    let r := getIdleValidConnection now opts.minDelayValidation s.idle s.active
    let s1 : PoolSt := { s with idle := r.idle, active := r.active }
    match r.found with
    | some c => (.fulfilled c, s1)
    | none => (.queued ⟨tid, now + opts.acquireTimeout, sql, values⟩,
               missUpdate opts now tid sql values s1)

/-- What the overlaid `conn.end` did with the connection
(`pool.js:278-300`). -/
inductive EndOutcome where
  | recycled
  | endedWhileClosed
  | discardedUncertain
  deriving DecidableEq

/-- The overlaid `conn.end` (`pool.js:278-300`), resumed after the
`conn.rollback()` round-trip with outcome `rollbackOk`.  Rollback success:
stamp `lastUse = now`, delete from `activeConnections`; if the pool closed
meanwhile, terminate the connection for real, else push it onto the back of
`idleConnections` and defer `handleTaskQueue` to the next tick.  Rollback
failure: the connection state is uncertain — delete it from
`activeConnections` and terminate it (the follow-up `checkPoolSize` is a
separate scheduler event). -/
def connEnd (rollbackOk : Bool) (now : Int) (c : Conn) (s : PoolSt) :
    PoolSt × EndOutcome :=
  if rollbackOk then
    let s1 : PoolSt := { s with active := activeDelete s.active c.threadId }
    if s.closed then (s1, .endedWhileClosed)
    else ({ s1 with idle := s1.idle ++ [{ c with lastUse := now }] }, .recycled)
  else
    ({ s with active := activeDelete s.active c.threadId }, .discardedUncertain)

/-- The idle-scan of the connection error handler (`pool.js:388-401`): walk
`idleConnections` from the front; every connection met before the faulty one
gets `lastUse = new Date(0)` (forcing a full probe on next borrow), and when
the faulty connection itself is met it is removed and the loop breaks — so
connections behind it are left untouched.  When the faulty connection is not
idle, the loop stamps the whole idle set. -/
def evictFromIdle (id : Nat) : List Conn → List Conn
  | [] => []
  | c :: rest =>
    if c.threadId = id then rest
    else { c with lastUse := 0 } :: evictFromIdle id rest

/-- The `conn.on("error", ...)` handler (`pool.js:387-403`): delete the
connection from `activeConnections`, then run the idle-scan.  The trailing
`checkPoolSize` is a separate scheduler event. -/
def onError (c : Conn) (s : PoolSt) : PoolSt :=
  { s with
    active := activeDelete s.active c.threadId,
    idle := evictFromIdle c.threadId s.idle }

/-- Observable actions of a query/acquisition continuation:
`conn.releaseWithoutError()`, resolving or rejecting the caller's promise. -/
inductive Action where
  | releaseConn (id : Nat)
  | resolvewith (res : String)
  | rejectwith (e : PoolErr)
  | resolveConn (id : Nat)
  deriving DecidableEq

/-- The promise flavour of `useConnection` (`pool.js:197-212`), resumed with
the query outcome `qr`: with a query payload, release the connection and
then propagate the untouched outcome; without one, resolve with the
connection itself. -/
def useConnectionPromise (c : Conn) (sql : Option String)
    (qr : Except PoolErr String) : List Action :=
  match sql with
  | some _ =>
    match qr with
    | .ok res => [.releaseConn c.threadId, .resolvewith res]
    | .error e => [.releaseConn c.threadId, .rejectwith e]
  | none => [.resolveConn c.threadId]

/-- The task-handling tail of `handleTaskQueue` (`pool.js:436-460`), resumed
with the query outcome `qr` when the task carries a query payload: release
the connection, then settle the waiter with the untouched outcome; a payload-
less waiter is resolved with the connection directly. -/
def serveTaskActions (t : PoolTask) (c : Conn) (qr : Except PoolErr String) : List Action :=
  match t.sql with
  | some _ =>
    match qr with
    | .ok res => [.releaseConn c.threadId, .resolvewith res]
    | .error e => [.releaseConn c.threadId, .rejectwith e]
  | none => [.resolveConn c.threadId]

/-- Outcome of the timeout handler `rejectTimeout` (`pool.js:232-249`). -/
inductive TimeoutOutcome where
  | rejectedHead (t : PoolTask) (e : PoolErr)
  | fatalThrow
  deriving DecidableEq

/-- The timeout handler `rejectTimeout` (`pool.js:232-249`), fired with the
task the timer was armed for: null the timer; if that task is still the
queue front, shift it and reject it with the acquire-timeout error;
otherwise throw `Error("Rejection by timeout without task !!!")` (modelled
by `fatalThrow`; no waiter is rejected on that branch). -/
def rejectTimeout (task : PoolTask) (s : PoolSt) : TimeoutOutcome × PoolSt :=
  let s0 : PoolSt := { s with timer := none }
  match s0.tasks with
  | [] => (.fatalThrow, s0)
  | head :: rest =>
    if head = task then
      (.rejectedHead head acquireTimeoutError, { s0 with tasks := rest })
    else (.fatalThrow, s0)

/-- The rearm loop `resetTimeoutToNextTask` (`pool.js:464-476`): pop and
reject (with the acquire-timeout error) every already-expired head, then arm
the single timer for the first unexpired head, if any.  Returns the
remaining queue, the armed timer and the rejected tasks in order. -/
def resetTimeoutToNextTask (now : Int) :
    List PoolTask → List PoolTask × Option PoolTask × List PoolTask
  | [] => ([], none, [])
  | t :: rest =>
    if t.timeout < now then
      let r := resetTimeoutToNextTask now rest
      (r.1, r.2.1, t :: r.2.2)
    else (t :: rest, some t, [])

/-- Outcome of one `handleTaskQueue` run (`pool.js:423-462`). -/
inductive ServeOutcome where
  | noTask
  | served (t : PoolTask) (c : Conn)
  | crashed (t : PoolTask)
  deriving DecidableEq

/-- The waiter service `handleTaskQueue` (`pool.js:423-462`): clear the
timer, shift a task; if none, stop.  Otherwise shift an idle connection and
store it in `activeConnections` — the code never checks that one exists, so
with an empty idle set the dereference `conn.threadId` throws (`crashed`:
the popped task is lost, neither resolved nor rejected, and the rearm is
never reached).  On success, rearm the timer for the new head (rejecting
already-expired heads) and hand the connection to the task.  Returns the
outcome, the new state, and the tasks rejected by the rearm loop. -/
def handleTaskQueue (now : Int) (s : PoolSt) :
    ServeOutcome × PoolSt × List PoolTask :=
  let s0 : PoolSt := { s with timer := none }
  match s0.tasks with
  | [] => (.noTask, s0, [])
  | t :: rest =>
    match s0.idle with
    | [] => (.crashed t, { s0 with tasks := rest }, [])
    | c :: irest =>
      let s1 : PoolSt := { s0 with
        tasks := rest, idle := irest, active := activeInsert s0.active c }
      let r := resetTimeoutToNextTask now s1.tasks
      (.served t c, { s1 with tasks := r.1, timer := r.2.1 }, r.2.2)

/-- The shutdown `this.end` (`pool.js:40-66`): clear the timer; if already
closed, reject with the pool-closed error (terminating nothing); otherwise
shift every idle connection and call its (overlaid) `end` on it, set
`closed`, and clear the task queue — the queued waiters are discarded
without being resolved or rejected.  Returns the new state, the promise
outcome, and the connections on which `end` was invoked, in shift order. -/
def poolEnd (s : PoolSt) : PoolSt × Except PoolErr Unit × List Conn :=
  let s0 : PoolSt := { s with timer := none }
  if s0.closed then (s0, .error poolClosedError, [])
  else ({ s0 with closed := true, idle := [], tasks := [] }, .ok (), s0.idle)

/-- Labels of the pool's scheduler events: each is one synchronous block of
`pool.js`, delimited by the asynchronous boundaries (connect, ping, query,
rollback, `process.nextTick`, timers). -/
inductive Ev where
  | validateShift (c : Conn)
  | validateDrop (id : Nat)
  | requestMiss (t : PoolTask)
  | checkPoolGrow
  | beginCreation
  | creationDoneOpen (c : Conn)
  | creationDoneClosed
  | creationFailed
  | releaseOk (c : Conn)
  | releaseUncertain (c : Conn)
  | destroyConn (id : Nat)
  | connError (c : Conn)
  | serveTask (t : PoolTask) (c : Conn)
  | serveCrash (t : PoolTask)
  | timeoutHead (t : PoolTask)
  | timeoutFatal (t : PoolTask)
  | closePool
  deriving DecidableEq

/-- One scheduler step of the pool.  Each constructor is one synchronous
block of `pool.js`, with its guard and its state update:

* `validateShift` — `pool.js:163-164`: `getIdleValidConnection` pops the idle
  front and stores it in `activeConnections` before probing it (only ever
  runs from a non-closed `handleRequest`);
* `validateDrop` — `pool.js:170,182,191`: a probe failure resumes and deletes
  the candidate from `activeConnections`;
* `requestMiss` — `pool.js:134-153`: the idle set is exhausted, so the
  request maybe starts a creation and stacks a task (`missUpdate`);
* `checkPoolGrow` — `pool.js:413-418`: `checkPoolSize` finds no creation in
  flight and spare capacity, sets `connectionInCreation` and schedules
  `addConnectionToPool` on the next tick;
* `beginCreation` — `pool.js:267-271`: the scheduled `addConnectionToPool`
  runs, re-sets `connectionInCreation` and starts `conn.connect()`;
* `creationDoneOpen` — `pool.js:272-309,373-408`: `connect()` resolves with
  the pool still open; `overlayNewConnection` pushes the wrapped connection
  onto the idle set and clears `connectionInCreation`;
* `creationDoneClosed` — `pool.js:273-274`: `connect()` resolves after the
  pool closed; the connection is ended instead of being added, and
  `connectionInCreation` is left set;
* `creationFailed` — `pool.js:311-314`: `connect()` rejects and
  `connectionInCreation` is cleared;
* `releaseOk`/`releaseUncertain` — the overlaid `conn.end` resumes after
  rollback (`connEnd`); the borrower contract guarantees the released
  connection is one of the lent (active) connections;
* `destroyConn` — `pool.js:379-383`: the overlaid `destroy` deletes the
  connection from `activeConnections`;
* `connError` — `pool.js:387-403`: the connection error handler (`onError`);
* `serveTask`/`serveCrash` — `pool.js:423-462`: one `handleTaskQueue` run
  with a waiter present, with and without an idle connection;
* `timeoutHead`/`timeoutFatal` — `pool.js:255-258,232-249`: the armed timer
  fires for its task, which is or is not still the queue head;
* `closePool` — `pool.js:40-66`: a first `this.end()` call (`poolEnd`). -/
inductive Step (opts : Opts) : PoolSt → Ev → PoolSt → Prop where
  | validateShift (s : PoolSt) (c : Conn) (rest : List Conn)
      (hopen : s.closed = false) (hidle : s.idle = c :: rest) :
      Step opts s (.validateShift c)
        { s with idle := rest, active := activeInsert s.active c }
  | validateDrop (s : PoolSt) (id : Nat) :
      Step opts s (.validateDrop id)
        { s with active := activeDelete s.active id }
  | requestMiss (s : PoolSt) (now : Int) (tid : Nat) (sql values : Option String)
      (hopen : s.closed = false) (hidle : s.idle = []) :
      Step opts s (.requestMiss ⟨tid, now + opts.acquireTimeout, sql, values⟩)
        (missUpdate opts now tid sql values s)
  | checkPoolGrow (s : PoolSt)
      (hflag : s.connectionInCreation = false)
      (hroom : s.totalConnections < opts.connectionLimit) :
      Step opts s .checkPoolGrow
        { s with connectionInCreation := true, scheduledCreation := true }
  | beginCreation (s : PoolSt) (hsched : s.scheduledCreation = true) :
      Step opts s .beginCreation
        { s with scheduledCreation := false, connecting := true,
                 connectionInCreation := true }
  | creationDoneOpen (s : PoolSt) (c : Conn)
      (hconn : s.connecting = true) (hopen : s.closed = false) :
      Step opts s (.creationDoneOpen c)
        { s with connecting := false, connectionInCreation := false,
                 idle := s.idle ++ [c] }
  | creationDoneClosed (s : PoolSt)
      (hconn : s.connecting = true) (hclosed : s.closed = true) :
      Step opts s .creationDoneClosed { s with connecting := false }
  | creationFailed (s : PoolSt) (hconn : s.connecting = true) :
      Step opts s .creationFailed
        { s with connecting := false, connectionInCreation := false }
  | releaseOk (s : PoolSt) (c : Conn) (now : Int)
      (hmem : ∃ a ∈ s.active, a.threadId = c.threadId) :
      Step opts s (.releaseOk c) (connEnd true now c s).1
  | releaseUncertain (s : PoolSt) (c : Conn) (now : Int)
      (hmem : ∃ a ∈ s.active, a.threadId = c.threadId) :
      Step opts s (.releaseUncertain c) (connEnd false now c s).1
  | destroyConn (s : PoolSt) (id : Nat) :
      Step opts s (.destroyConn id)
        { s with active := activeDelete s.active id }
  | connError (s : PoolSt) (c : Conn) :
      Step opts s (.connError c) (onError c s)
  | serveTask (s : PoolSt) (now : Int) (t : PoolTask) (rest : List PoolTask)
      (c : Conn) (irest : List Conn)
      (htasks : s.tasks = t :: rest) (hidle : s.idle = c :: irest) :
      Step opts s (.serveTask t c) (handleTaskQueue now s).2.1
  | serveCrash (s : PoolSt) (t : PoolTask) (rest : List PoolTask)
      (htasks : s.tasks = t :: rest) (hidle : s.idle = []) :
      Step opts s (.serveCrash t) { s with timer := none, tasks := rest }
  | timeoutHead (s : PoolSt) (now : Int) (t : PoolTask) (rest : List PoolTask)
      (htimer : s.timer = some t) (htasks : s.tasks = t :: rest) :
      Step opts s (.timeoutHead t)
        { s with tasks := (resetTimeoutToNextTask now rest).1,
                 timer := (resetTimeoutToNextTask now rest).2.1 }
  | timeoutFatal (s : PoolSt) (t : PoolTask)
      (htimer : s.timer = some t) (hhead : s.tasks.head? ≠ some t) :
      Step opts s (.timeoutFatal t) { s with timer := none }
  | closePool (s : PoolSt) (hopen : s.closed = false) :
      Step opts s .closePool (poolEnd s).1

/-- Pool states reachable from construction.  `activatedSt` covers the
factory's single `activatePool()` call (`pool.js:260-262`), made on the
freshly built empty pool under the configuration validation
`connectionLimit > 0` enforced outside `src/`. -/
inductive Reachable (opts : Opts) : PoolSt → Prop where
  | init : Reachable opts initSt
  | activated (hpos : 0 < opts.connectionLimit) : Reachable opts activatedSt
  | step {s : PoolSt} {e : Ev} {s' : PoolSt} :
      Reachable opts s → Step opts s e s' → Reachable opts s'

/-- Number of session creations in flight: a creation scheduled by
`checkPoolSize` but not yet started, or a `conn.connect()` under way. -/
def inFlightCreations (s : PoolSt) : Nat :=
  (if s.scheduledCreation then 1 else 0) + (if s.connecting then 1 else 0)

/-- A fully shut-down pool: closed, with no idle connection, no queued
waiter, and no armed timer — the state `this.end()` leaves behind. -/
def ClosedQuiet (s : PoolSt) : Prop :=
  s.closed = true ∧ s.tasks = [] ∧ s.timer = none ∧ s.idle = []

/-- The inductive invariant of the pool's transition system. -/
def Inv (limit : Nat) (s : PoolSt) : Prop :=
  s.totalConnections ≤ limit ∧
  (s.connectionInCreation = true → s.totalConnections < limit) ∧
  (s.connecting = true → s.connectionInCreation = true) ∧
  (s.scheduledCreation = true → s.connectionInCreation = true) ∧
  (s.scheduledCreation = false ∨ s.connecting = false) ∧
  (s.closed = true → s.idle = [] ∧ s.tasks = [] ∧ s.timer = none)

/-- Concrete fixture connections and tasks, used to evaluate the embedding
at specific inputs. -/
def cA : Conn := ⟨1, 0, true, true⟩

def cB : Conn := ⟨2, 0, true, true⟩

def cC : Conn := ⟨3, 0, true, true⟩

def cStale : Conn := ⟨4, 100, true, false⟩

def tA : PoolTask := ⟨10, 100, none, none⟩

def tB : PoolTask := ⟨11, 200, none, none⟩

/-- Fixture: open pool with one idle connection (`cA`), one lent connection
(`cB`) and one queued waiter (`tA`), timer armed for `tA`. -/
def stRelease : PoolSt :=
  ⟨false, false, false, false, [cA], [cB], [tA], some tA⟩

/-- Fixture: open pool with no idle connection, one lent connection (`cC`)
and one queued waiter (`tA`). -/
def stEmptyIdle : PoolSt :=
  ⟨false, false, false, false, [], [cC], [tA], some tA⟩

/-- Fixture: open pool with two idle connections — a stale one whose ping
fails (`cStale`) in front of a healthy one (`cB`) — and nothing else. -/
def stValid : PoolSt :=
  ⟨false, false, false, false, [cStale, cB], [], [], none⟩

theorem activeDelete_length_le (a : List Conn) (id : Nat) :
    (activeDelete a id).length ≤ a.length :=
  List.length_filter_le _ _

theorem activeInsert_length_le (a : List Conn) (c : Conn) :
    (activeInsert a c).length ≤ a.length + 1 := by
  have h := activeDelete_length_le a c.threadId
  simp only [activeInsert, List.length_append, List.length_cons, List.length_nil]
  omega

theorem length_filter_lt_of_mem {α : Type} (p : α → Bool) (l : List α) (x : α)
    (hx : x ∈ l) (hpx : p x = false) : (l.filter p).length < l.length := by
  induction l with
  | nil => simp at hx
  | cons y ys ih =>
    rcases List.mem_cons.mp hx with rfl | hmem
    · have := List.length_filter_le p ys
      simp [List.filter_cons, hpx]
      omega
    · by_cases hpy : p y = true
      · simp [List.filter_cons, hpy]
        exact ih hmem
      · have := List.length_filter_le p ys
        simp [List.filter_cons, Bool.eq_false_iff.mpr hpy] at *
        omega

theorem activeDelete_length_lt (a : List Conn) (id : Nat)
    (h : ∃ x ∈ a, x.threadId = id) : (activeDelete a id).length < a.length := by
  obtain ⟨x, hx, hxid⟩ := h
  exact length_filter_lt_of_mem _ a x hx (by simp [hxid])

theorem evictFromIdle_length_le (id : Nat) (l : List Conn) :
    (evictFromIdle id l).length ≤ l.length := by
  induction l with
  | nil => simp [evictFromIdle]
  | cons c rest ih =>
    simp only [evictFromIdle]
    by_cases h : c.threadId = id
    · simp [h]
    · simp [h, List.length_cons]
      omega

theorem closed_ne_true {s : PoolSt} (h : s.closed = false) : ¬ s.closed = true := by
  rw [h]; simp

theorem Inv_init (limit : Nat) : Inv limit initSt := by
  refine ⟨?_, ?_, ?_, ?_, ?_, ?_⟩ <;> simp [initSt, PoolSt.totalConnections,
    PoolSt.activeCount, PoolSt.idleCount, Inv]

theorem Inv_activated (limit : Nat) (hpos : 0 < limit) : Inv limit activatedSt := by
  refine ⟨?_, ?_, ?_, ?_, ?_, ?_⟩ <;> simp [activatedSt, PoolSt.totalConnections,
    PoolSt.activeCount, PoolSt.idleCount, Inv, hpos]

theorem Inv_step {opts : Opts} {s : PoolSt} {e : Ev} {s' : PoolSt}
    (hstep : Step opts s e s') (h : Inv opts.connectionLimit s) :
    Inv opts.connectionLimit s' := by
  obtain ⟨h1, h2, h3, h4, h5, h6⟩ := h
  have H1 : s.active.length + s.idle.length ≤ opts.connectionLimit := h1
  have H2 : s.connectionInCreation = true →
      s.active.length + s.idle.length < opts.connectionLimit := h2
  cases hstep with
  | validateShift c rest hopen hidle =>
    have hins := activeInsert_length_le s.active c
    have hlen : s.idle.length = rest.length + 1 := by rw [hidle]; rfl
    exact ⟨by show (activeInsert s.active c).length + rest.length ≤ _; omega,
           fun hc => by
             show (activeInsert s.active c).length + rest.length < _
             have := H2 hc; omega,
           h3, h4, h5, fun hc => absurd hc (closed_ne_true hopen)⟩
  | validateDrop id =>
    have hdel := activeDelete_length_le s.active id
    exact ⟨by show (activeDelete s.active id).length + s.idle.length ≤ _; omega,
           fun hc => by
             show (activeDelete s.active id).length + s.idle.length < _
             have := H2 hc; omega,
           h3, h4, h5, fun hc => h6 hc⟩
  | requestMiss now tid sql values hopen hidle =>
    by_cases hg : growthGuard opts s = true
    · have hgt := growthGuard_eq_true.mp hg
      have hmu : missUpdate opts now tid sql values s =
          { s with connectionInCreation := true, connecting := true,
                   tasks := s.tasks ++ [⟨tid, now + opts.acquireTimeout, sql, values⟩],
                   timer := some (s.timer.getD ⟨tid, now + opts.acquireTimeout, sql, values⟩) } := by
        simp [missUpdate, hg]
      rw [hmu]
      have hsched : s.scheduledCreation = false := by
        cases hs : s.scheduledCreation
        · rfl
        · exact absurd (h4 hs) (by rw [hgt.1]; simp)
      refine ⟨?_, ?_, ?_, ?_, ?_, ?_⟩
      · show s.active.length + s.idle.length ≤ _; omega
      · intro _
        show s.active.length + s.idle.length < _
        have := hgt.2
        simp [PoolSt.totalConnections, PoolSt.activeCount, PoolSt.idleCount] at this
        omega
      · exact fun _ => rfl
      · exact fun _ => rfl
      · exact Or.inl hsched
      · exact fun hc => absurd hc (closed_ne_true hopen)
    · have hmu : missUpdate opts now tid sql values s =
          { s with tasks := s.tasks ++ [⟨tid, now + opts.acquireTimeout, sql, values⟩],
                   timer := some (s.timer.getD ⟨tid, now + opts.acquireTimeout, sql, values⟩) } := by
        simp [missUpdate, Bool.eq_false_iff.mpr hg]
      rw [hmu]
      exact ⟨H1, fun hc => H2 hc, h3, h4, h5,
        fun hc => absurd hc (closed_ne_true hopen)⟩
  | checkPoolGrow hflag hroom =>
    have hroom' : s.active.length + s.idle.length < opts.connectionLimit := hroom
    refine ⟨H1, fun _ => hroom', fun _ => rfl, fun _ => rfl, ?_, fun hc => h6 hc⟩
    right
    cases hcn : s.connecting
    · rfl
    · exact absurd (h3 hcn) (by rw [hflag]; simp)
  | beginCreation hsched =>
    exact ⟨H1, fun _ => H2 (h4 hsched), fun _ => rfl, fun hc => Bool.noConfusion hc,
           Or.inl rfl, fun hc => h6 hc⟩
  | creationDoneOpen c hconn hopen =>
    have hlt := H2 (h3 hconn)
    have hlen : (s.idle ++ [c]).length = s.idle.length + 1 := by simp
    have hsf : s.scheduledCreation = false := by
      cases hs : s.scheduledCreation
      · rfl
      · rcases h5 with h5 | h5
        · rw [hs] at h5; exact h5
        · exact absurd hconn (by rw [h5]; simp)
    refine ⟨?_, ?_, ?_, ?_, Or.inr rfl, ?_⟩
    · show s.active.length + (s.idle ++ [c]).length ≤ _; omega
    · exact fun hc => Bool.noConfusion hc
    · exact fun hc => Bool.noConfusion hc
    · exact fun hc => Bool.noConfusion (hsf ▸ hc)
    · exact fun hc => absurd hc (closed_ne_true hopen)
  | creationDoneClosed hconn hclosed =>
    exact ⟨H1, fun hc => H2 hc, fun hc => Bool.noConfusion hc, h4,
           Or.inr rfl, fun hc => h6 hc⟩
  | creationFailed hconn =>
    have hsf : s.scheduledCreation = false := by
      cases hs : s.scheduledCreation
      · rfl
      · rcases h5 with h5 | h5
        · rw [hs] at h5; exact h5
        · exact absurd hconn (by rw [h5]; simp)
    exact ⟨H1, fun hc => Bool.noConfusion hc, fun hc => Bool.noConfusion hc,
           fun hc => Bool.noConfusion (hsf ▸ hc), Or.inr rfl, fun hc => h6 hc⟩
  | releaseOk c now hmem =>
    by_cases hcl : s.closed = true
    · have hs' : (connEnd true now c s).1 =
          { s with active := activeDelete s.active c.threadId } := by
        simp [connEnd, hcl]
      rw [hs']
      have hdel := activeDelete_length_le s.active c.threadId
      exact ⟨by show (activeDelete s.active c.threadId).length + s.idle.length ≤ _; omega,
             fun hc => by
               show (activeDelete s.active c.threadId).length + s.idle.length < _
               have := H2 hc; omega,
             h3, h4, h5, fun hc => h6 hc⟩
    · have hopen : s.closed = false := by simpa using hcl
      have hs' : (connEnd true now c s).1 =
          { s with active := activeDelete s.active c.threadId,
                   idle := s.idle ++ [{ c with lastUse := now }] } := by
        simp [connEnd, hopen]
      rw [hs']
      have hlt := activeDelete_length_lt s.active c.threadId hmem
      have hlen : (s.idle ++ [{ c with lastUse := now }]).length = s.idle.length + 1 := by simp
      refine ⟨?_, ?_, h3, h4, h5, fun hc => absurd hc (closed_ne_true hopen)⟩
      · show (activeDelete s.active c.threadId).length +
          (s.idle ++ [{ c with lastUse := now }]).length ≤ _
        omega
      · intro hc
        show (activeDelete s.active c.threadId).length +
          (s.idle ++ [{ c with lastUse := now }]).length < _
        have := H2 hc; omega
  | releaseUncertain c now hmem =>
    have hdel := activeDelete_length_le s.active c.threadId
    exact ⟨by show (activeDelete s.active c.threadId).length + s.idle.length ≤ _; omega,
           fun hc => by
             show (activeDelete s.active c.threadId).length + s.idle.length < _
             have := H2 hc; omega,
           h3, h4, h5, fun hc => h6 hc⟩
  | destroyConn id =>
    have hdel := activeDelete_length_le s.active id
    exact ⟨by show (activeDelete s.active id).length + s.idle.length ≤ _; omega,
           fun hc => by
             show (activeDelete s.active id).length + s.idle.length < _
             have := H2 hc; omega,
           h3, h4, h5, fun hc => h6 hc⟩
  | connError c =>
    have hdel := activeDelete_length_le s.active c.threadId
    have hev := evictFromIdle_length_le c.threadId s.idle
    refine ⟨?_, ?_, h3, h4, h5, ?_⟩
    · show (activeDelete s.active c.threadId).length +
        (evictFromIdle c.threadId s.idle).length ≤ _
      omega
    · intro hc
      show (activeDelete s.active c.threadId).length +
        (evictFromIdle c.threadId s.idle).length < _
      have := H2 hc; omega
    · intro hc
      have hq := h6 hc
      exact ⟨by show evictFromIdle c.threadId s.idle = []; rw [hq.1]; rfl,
             hq.2.1, hq.2.2⟩
  | serveTask now t rest c irest htasks hidle =>
    have hs' : (handleTaskQueue now s).2.1 =
        { s with tasks := (resetTimeoutToNextTask now rest).1,
                 idle := irest,
                 active := activeInsert s.active c,
                 timer := (resetTimeoutToNextTask now rest).2.1 } := by
      simp [handleTaskQueue, htasks, hidle]
    rw [hs']
    have hins := activeInsert_length_le s.active c
    have hlen : s.idle.length = irest.length + 1 := by rw [hidle]; rfl
    refine ⟨?_, ?_, h3, h4, h5, ?_⟩
    · show (activeInsert s.active c).length + irest.length ≤ _; omega
    · intro hc
      show (activeInsert s.active c).length + irest.length < _
      have := H2 hc; omega
    · intro hc
      exact absurd ((h6 hc).2.1.symm.trans htasks) (by simp)
  | serveCrash t rest htasks hidle =>
    exact ⟨H1, fun hc => H2 hc, h3, h4, h5,
           fun hc => absurd ((h6 hc).2.1.symm.trans htasks) (by simp)⟩
  | timeoutHead now t rest htimer htasks =>
    exact ⟨H1, fun hc => H2 hc, h3, h4, h5,
           fun hc => absurd ((h6 hc).2.1.symm.trans htasks) (by simp)⟩
  | timeoutFatal t htimer hhead =>
    exact ⟨H1, fun hc => H2 hc, h3, h4, h5,
           fun hc => ⟨(h6 hc).1, (h6 hc).2.1, rfl⟩⟩
  | closePool hopen =>
    have hs' : (poolEnd s).1 =
        { s with timer := none, closed := true, idle := [], tasks := [] } := by
      simp [poolEnd, hopen]
    rw [hs']
    refine ⟨?_, ?_, h3, h4, h5, fun _ => ⟨rfl, rfl, rfl⟩⟩
    · show s.active.length + ([] : List Conn).length ≤ _; simp; omega
    · intro hc
      show s.active.length + ([] : List Conn).length < _
      have := H2 hc; simp; omega

/-- Every reachable pool state satisfies the inductive invariant. -/
theorem Inv_reachable {opts : Opts} {s : PoolSt} (h : Reachable opts s) :
    Inv opts.connectionLimit s := by
  induction h with
  | init => exact Inv_init _
  | activated hpos => exact Inv_activated _ hpos
  | step _ hstep ih => exact Inv_step hstep ih

theorem connEnd_fst_fields (rollbackOk : Bool) (now : Int) (c : Conn) (s : PoolSt) :
    (connEnd rollbackOk now c s).1.connectionInCreation = s.connectionInCreation ∧
    (connEnd rollbackOk now c s).1.connecting = s.connecting ∧
    (connEnd rollbackOk now c s).1.scheduledCreation = s.scheduledCreation ∧
    (connEnd rollbackOk now c s).1.closed = s.closed ∧
    (connEnd rollbackOk now c s).1.tasks = s.tasks ∧
    (connEnd rollbackOk now c s).1.timer = s.timer := by
  cases rollbackOk <;> by_cases h : s.closed = true <;> simp [connEnd, h]

theorem handleTaskQueue_fst_fields (now : Int) (s : PoolSt) :
    (handleTaskQueue now s).2.1.connectionInCreation = s.connectionInCreation ∧
    (handleTaskQueue now s).2.1.connecting = s.connecting ∧
    (handleTaskQueue now s).2.1.scheduledCreation = s.scheduledCreation ∧
    (handleTaskQueue now s).2.1.closed = s.closed := by
  rcases htasks : s.tasks with _ | ⟨t, rest⟩ <;>
    rcases hidle : s.idle with _ | ⟨c, irest⟩ <;>
    simp [handleTaskQueue, htasks, hidle]

theorem missUpdate_of_flag (opts : Opts) (now : Int) (tid : Nat)
    (sql values : Option String) (s : PoolSt)
    (h : s.connectionInCreation = true) :
    missUpdate opts now tid sql values s =
      { s with tasks := s.tasks ++ [⟨tid, now + opts.acquireTimeout, sql, values⟩],
               timer := some (s.timer.getD ⟨tid, now + opts.acquireTimeout, sql, values⟩) } := by
  have hg : growthGuard opts s = false := by simp [growthGuard, h]
  simp [missUpdate, hg]

/-- C1: for every reachable pool state, the idle-set size plus the
active-set size never exceeds the configured `connectionLimit`; at most one
session creation (scheduled or connecting) is in flight; the
`connectionInCreation` flag is set whenever a creation is in flight; and a
scheduler step clears the flag only when the in-flight creation completes
into an open pool or fails. -/
theorem C1_capacity_and_single_creation {opts : Opts} {s : PoolSt}
    (h : Reachable opts s) :
    s.idleCount + s.activeCount ≤ opts.connectionLimit ∧
    inFlightCreations s ≤ 1 ∧
    (inFlightCreations s = 1 → s.connectionInCreation = true) ∧
    (∀ e s', Step opts s e s' → s.connectionInCreation = true →
      s'.connectionInCreation = false →
      (∃ c, e = Ev.creationDoneOpen c) ∨ e = Ev.creationFailed) := by
  obtain ⟨h1, h2, h3, h4, h5, h6⟩ := Inv_reachable h
  have H1 : s.active.length + s.idle.length ≤ opts.connectionLimit := h1
  refine ⟨by show s.idle.length + s.active.length ≤ _; omega, ?_, ?_, ?_⟩
  · unfold inFlightCreations
    rcases h5 with h5 | h5 <;> simp [h5] <;> split <;> simp
  · intro hone
    unfold inFlightCreations at hone
    by_cases hs : s.scheduledCreation = true
    · exact h4 hs
    · by_cases hcn : s.connecting = true
      · exact h3 hcn
      · simp [Bool.not_eq_true] at hs hcn
        simp [hs, hcn] at hone
  · intro e s' hstep hpre hpost
    cases hstep with
    | validateShift c rest hopen hidle =>
      exact absurd (hpre.symm.trans hpost) (by simp)
    | validateDrop id => exact absurd (hpre.symm.trans hpost) (by simp)
    | requestMiss now tid sql values hopen hidle =>
      rw [missUpdate_of_flag opts now tid sql values _ hpre] at hpost
      exact absurd (hpre.symm.trans hpost) (by simp)
    | checkPoolGrow hflag hroom => exact absurd (hflag.symm.trans hpre) (by simp)
    | beginCreation hsched => exact absurd hpost (by simp)
    | creationDoneOpen c hconn hopen => exact Or.inl ⟨c, rfl⟩
    | creationDoneClosed hconn hclosed =>
      exact absurd (hpre.symm.trans hpost) (by simp)
    | creationFailed hconn => exact Or.inr rfl
    | releaseOk c now hmem =>
      rw [(connEnd_fst_fields true now c s).1] at hpost
      exact absurd (hpre.symm.trans hpost) (by simp)
    | releaseUncertain c now hmem =>
      rw [(connEnd_fst_fields false now c s).1] at hpost
      exact absurd (hpre.symm.trans hpost) (by simp)
    | destroyConn id => exact absurd (hpre.symm.trans hpost) (by simp)
    | connError c => exact absurd (hpre.symm.trans hpost) (by simp)
    | serveTask now t rest c irest htasks hidle =>
      rw [(handleTaskQueue_fst_fields now s).1] at hpost
      exact absurd (hpre.symm.trans hpost) (by simp)
    | serveCrash t rest htasks hidle => exact absurd (hpre.symm.trans hpost) (by simp)
    | timeoutHead now t rest htimer htasks =>
      exact absurd (hpre.symm.trans hpost) (by simp)
    | timeoutFatal t htimer hhead => exact absurd (hpre.symm.trans hpost) (by simp)
    | closePool hopen =>
      have : (poolEnd s).1.connectionInCreation = s.connectionInCreation := by
        simp [poolEnd, hopen]
      rw [this] at hpost
      exact absurd (hpre.symm.trans hpost) (by simp)

theorem C1_capacity_and_single_creation_witness :
    initSt.idleCount + initSt.activeCount ≤ (⟨2, 100, 0⟩ : Opts).connectionLimit ∧
    inFlightCreations initSt ≤ 1 ∧
    (inFlightCreations initSt = 1 → initSt.connectionInCreation = true) ∧
    (∀ e s', Step ⟨2, 100, 0⟩ initSt e s' → initSt.connectionInCreation = true →
      s'.connectionInCreation = false →
      (∃ c, e = Ev.creationDoneOpen c) ∨ e = Ev.creationFailed) :=
  C1_capacity_and_single_creation Reachable.init

/-- C6: once the pool is closed, every acquire/query call rejects
immediately with the pool-closed error and leaves the state (hence the
waiter queue) untouched; the idle set and waiter queue are empty; every
further scheduler step keeps the pool closed, never increases the connection
total, and keeps the idle set empty; and no creation can complete by adding
its connection to the pool (the open-completion step is impossible — only
the closed-completion step, which ends the connection, remains). -/
theorem C6_closed_pool {opts : Opts} {s : PoolSt} (h : Reachable opts s)
    (hc : s.closed = true) :
    (∀ now tid sql values,
      handleRequest opts now tid sql values s = (.rejected poolClosedError, s)) ∧
    s.idle = [] ∧ s.tasks = [] ∧
    (∀ e s', Step opts s e s' →
      s'.closed = true ∧ s'.totalConnections ≤ s.totalConnections ∧ s'.idle = []) ∧
    (∀ c s', ¬ Step opts s (Ev.creationDoneOpen c) s') := by
  obtain ⟨h1, h2, h3, h4, h5, h6⟩ := Inv_reachable h
  obtain ⟨hidle0, htasks0, htimer0⟩ := h6 hc
  have Htot : s.totalConnections = s.active.length + s.idle.length := rfl
  refine ⟨?_, hidle0, htasks0, ?_, ?_⟩
  · intro now tid sql values
    simp [handleRequest, hc]
  · intro e s' hstep
    cases hstep with
    | validateShift c rest hopen hidle => exact absurd hc (closed_ne_true hopen)
    | validateDrop id =>
      have hdel := activeDelete_length_le s.active id
      exact ⟨hc, by show (activeDelete s.active id).length + s.idle.length ≤ _; omega,
             hidle0⟩
    | requestMiss now tid sql values hopen hidle =>
      exact absurd hc (closed_ne_true hopen)
    | checkPoolGrow hflag hroom => exact ⟨hc, le_refl _, hidle0⟩
    | beginCreation hsched => exact ⟨hc, le_refl _, hidle0⟩
    | creationDoneOpen c hconn hopen => exact absurd hc (closed_ne_true hopen)
    | creationDoneClosed hconn hclosed => exact ⟨hc, le_refl _, hidle0⟩
    | creationFailed hconn => exact ⟨hc, le_refl _, hidle0⟩
    | releaseOk c now hmem =>
      have hs' : (connEnd true now c s).1 =
          { s with active := activeDelete s.active c.threadId } := by
        simp [connEnd, hc]
      rw [hs']
      have hdel := activeDelete_length_le s.active c.threadId
      exact ⟨hc,
        by show (activeDelete s.active c.threadId).length + s.idle.length ≤ _; omega,
        hidle0⟩
    | releaseUncertain c now hmem =>
      have hdel := activeDelete_length_le s.active c.threadId
      exact ⟨hc,
        by show (activeDelete s.active c.threadId).length + s.idle.length ≤ _; omega,
        hidle0⟩
    | destroyConn id =>
      have hdel := activeDelete_length_le s.active id
      exact ⟨hc, by show (activeDelete s.active id).length + s.idle.length ≤ _; omega,
             hidle0⟩
    | connError c =>
      have hdel := activeDelete_length_le s.active c.threadId
      have hev : evictFromIdle c.threadId s.idle = [] := by rw [hidle0]; rfl
      refine ⟨hc, ?_, hev⟩
      show (activeDelete s.active c.threadId).length +
        (evictFromIdle c.threadId s.idle).length ≤ _
      rw [hev]
      simp
      omega
    | serveTask now t rest c irest htasks hidle =>
      exact absurd (htasks0.symm.trans htasks) (by simp)
    | serveCrash t rest htasks hidle =>
      exact absurd (htasks0.symm.trans htasks) (by simp)
    | timeoutHead now t rest htimer htasks =>
      exact absurd (htasks0.symm.trans htasks) (by simp)
    | timeoutFatal t htimer hhead =>
      exact absurd (htimer0.symm.trans htimer) (by simp)
    | closePool hopen => exact absurd hc (closed_ne_true hopen)
  · intro c s' hstep
    cases hstep with
    | creationDoneOpen c2 hconn hopen => exact absurd hc (closed_ne_true hopen)

theorem C6_closed_pool_witness :
    (∀ now tid sql values,
      handleRequest ⟨2, 100, 0⟩ now tid sql values (poolEnd initSt).1 =
        (.rejected poolClosedError, (poolEnd initSt).1)) ∧
    (poolEnd initSt).1.idle = [] ∧ (poolEnd initSt).1.tasks = [] ∧
    (∀ e s', Step ⟨2, 100, 0⟩ (poolEnd initSt).1 e s' →
      s'.closed = true ∧
      s'.totalConnections ≤ (poolEnd initSt).1.totalConnections ∧ s'.idle = []) ∧
    (∀ c s', ¬ Step ⟨2, 100, 0⟩ (poolEnd initSt).1 (Ev.creationDoneOpen c) s') :=
  C6_closed_pool
    (Reachable.step Reachable.init (Step.closePool initSt rfl)) (by decide)

/-- C2 counterexample: in a pool with one idle connection `cA`, one queued
waiter `tA` and a lent connection `cB`, releasing `cB` (rollback succeeds at
time 50) and then running the deferred waiter service hands the waiter `cA`
— the idle front — and not the released session `cB`; moreover the released
session sits in the Idle Set after the release step (it does pass through
the Idle Set).  This refutes the claim that the pool hands the exact
released session to the oldest waiter without it passing through the Idle
Set. -/
theorem C2_counterexample :
    (handleTaskQueue 50 (connEnd true 50 cB stRelease).1).1 =
      ServeOutcome.served tA cA ∧
    cA.threadId ≠ cB.threadId ∧
    { cB with lastUse := 50 } ∈ (connEnd true 50 cB stRelease).1.idle := by decide

/-- C2 (amended): releasing a session while at least one waiter is queued
appends the released session to the back of the Idle Set and defers the
waiter service to the next tick; the service then pops the oldest waiter and
hands it the front of the Idle Set, starting no session creation — so the
waiter receives the exact released session precisely when the Idle Set was
empty at release time; otherwise it receives the previous idle front. -/
theorem C2_release_serves_oldest_waiter_via_idle (s : PoolSt) (c : Conn)
    (now : Int) (t : PoolTask) (rest : List PoolTask)
    (hopen : s.closed = false) (htasks : s.tasks = t :: rest) :
    (connEnd true now c s).1.idle = s.idle ++ [{ c with lastUse := now }] ∧
    (s.idle = [] →
      (handleTaskQueue now (connEnd true now c s).1).1 =
        ServeOutcome.served t { c with lastUse := now }) ∧
    (∀ d irest, s.idle = d :: irest →
      (handleTaskQueue now (connEnd true now c s).1).1 = ServeOutcome.served t d) ∧
    (handleTaskQueue now (connEnd true now c s).1).2.1.connectionInCreation =
      s.connectionInCreation ∧
    (handleTaskQueue now (connEnd true now c s).1).2.1.connecting = s.connecting ∧
    (handleTaskQueue now (connEnd true now c s).1).2.1.scheduledCreation =
      s.scheduledCreation := by
  have hs1 : (connEnd true now c s).1 =
      { s with active := activeDelete s.active c.threadId,
               idle := s.idle ++ [{ c with lastUse := now }] } := by
    simp [connEnd, hopen]
  rw [hs1]
  refine ⟨rfl, ?_, ?_, ?_, ?_, ?_⟩
  · intro hidle
    simp [handleTaskQueue, htasks, hidle]
  · intro d irest hidle
    simp [handleTaskQueue, htasks, hidle]
  · exact (handleTaskQueue_fst_fields now _).1
  · exact (handleTaskQueue_fst_fields now _).2.1
  · exact (handleTaskQueue_fst_fields now _).2.2.1

theorem C2_release_serves_oldest_waiter_via_idle_witness :
    (connEnd true 50 cB stRelease).1.idle =
      stRelease.idle ++ [{ cB with lastUse := 50 }] ∧
    (stRelease.idle = [] →
      (handleTaskQueue 50 (connEnd true 50 cB stRelease).1).1 =
        ServeOutcome.served tA { cB with lastUse := 50 }) ∧
    (∀ d irest, stRelease.idle = d :: irest →
      (handleTaskQueue 50 (connEnd true 50 cB stRelease).1).1 =
        ServeOutcome.served tA d) ∧
    (handleTaskQueue 50 (connEnd true 50 cB stRelease).1).2.1.connectionInCreation =
      stRelease.connectionInCreation ∧
    (handleTaskQueue 50 (connEnd true 50 cB stRelease).1).2.1.connecting =
      stRelease.connecting ∧
    (handleTaskQueue 50 (connEnd true 50 cB stRelease).1).2.1.scheduledCreation =
      stRelease.scheduledCreation :=
  C2_release_serves_oldest_waiter_via_idle stRelease cB 50 tA [] rfl rfl

theorem activeDelete_eq_self (a : List Conn) (id : Nat)
    (h : ∀ d ∈ a, d.threadId ≠ id) : activeDelete a id = a :=
  List.filter_eq_self.mpr (fun d hd => by simpa using h d hd)

theorem evictFromIdle_spec (cid : Nat) (pre post : List Conn) (c : Conn)
    (hc : c.threadId = cid)
    (hpre : ∀ d ∈ pre, d.threadId ≠ cid) :
    evictFromIdle cid (pre ++ c :: post) =
      pre.map (fun d => { d with lastUse := 0 }) ++ post := by
  induction pre with
  | nil => simp [evictFromIdle, hc]
  | cons d ds ih =>
    have hd : d.threadId ≠ cid := hpre d (List.mem_cons_self d ds)
    simp only [List.cons_append, evictFromIdle, if_neg hd, List.map_cons,
      List.append_eq]
    rw [ih (fun x hx => hpre x (List.mem_cons_of_mem d hx))]

/-- C3 counterexample: a pool with two idle sessions, the faulty one
(`cA`, thread 1) at the front and a sibling (thread 2, `lastUse = 7`)
behind it.  The error handler removes the faulty session but leaves the
remaining sibling's `lastUse` at 7 — it is not stamped to the epoch, because
the idle scan breaks as soon as it removes the faulty session.  This refutes
the claim that every remaining idle sibling has its skip-probe eligibility
reset. -/
theorem C3_counterexample :
    (onError cA
      ⟨false, false, false, false, [cA, ⟨2, 7, true, true⟩], [], [], none⟩).idle =
      [⟨2, 7, true, true⟩] ∧
    ((7 : Int) ≠ 0) := by decide

/-- C3 (amended): when a session signals a fault while in the Idle Set
(and its thread id is not in the Active Set), the session is removed from
the Idle Set and `totalConnections()` decreases by exactly one; the idle
siblings positioned before it (closer to the front) have `lastUse` stamped
to the epoch, which forces a full ping probe on their next acquisition
whenever the staleness threshold is below the current time; the siblings
positioned behind it keep their `lastUse` stamp unchanged. -/
theorem C3_idle_fault_eviction (s : PoolSt) (c : Conn) (pre post : List Conn)
    (hidle : s.idle = pre ++ c :: post)
    (hpre : ∀ d ∈ pre, d.threadId ≠ c.threadId)
    (hact : ∀ d ∈ s.active, d.threadId ≠ c.threadId) :
    (onError c s).idle = pre.map (fun d => { d with lastUse := 0 }) ++ post ∧
    (onError c s).totalConnections + 1 = s.totalConnections ∧
    (∀ d : Conn, ∀ now minDelay : Int, minDelay < now →
      needsProbe now minDelay { d with lastUse := 0 } = true) := by
  have hev : evictFromIdle c.threadId s.idle =
      pre.map (fun d => { d with lastUse := 0 }) ++ post := by
    rw [hidle]
    exact evictFromIdle_spec c.threadId pre post c rfl hpre
  have hdel : activeDelete s.active c.threadId = s.active :=
    activeDelete_eq_self _ _ hact
  refine ⟨?_, ?_, ?_⟩
  · show evictFromIdle c.threadId s.idle = _
    rw [hev]
  · show (activeDelete s.active c.threadId).length +
      (evictFromIdle c.threadId s.idle).length + 1 =
      s.active.length + s.idle.length
    rw [hdel, hev, hidle]
    simp
    omega
  · intro d now minDelay hlt
    simp [needsProbe]
    omega

theorem C3_idle_fault_eviction_witness :
    (onError cA stRelease).idle =
      ([] : List Conn).map (fun d => { d with lastUse := 0 }) ++ [] ∧
    (onError cA stRelease).totalConnections + 1 = stRelease.totalConnections ∧
    (∀ d : Conn, ∀ now minDelay : Int, minDelay < now →
      needsProbe now minDelay { d with lastUse := 0 } = true) :=
  C3_idle_fault_eviction stRelease cA [] [] (by decide) (by decide) (by decide)

theorem givc_cons_pass (now minDelay : Int) (c : Conn) (rest active : List Conn)
    (hp : passesValidation now minDelay c = true) :
    getIdleValidConnection now minDelay (c :: rest) active =
      ⟨some c, rest, activeInsert active c, [], []⟩ := by
  simp [getIdleValidConnection, hp]

theorem givc_cons_fail (now minDelay : Int) (c : Conn) (rest active : List Conn)
    (hp : passesValidation now minDelay c = false) :
    getIdleValidConnection now minDelay (c :: rest) active =
      { getIdleValidConnection now minDelay rest
          (activeDelete (activeInsert active c) c.threadId) with
        discarded := c :: (getIdleValidConnection now minDelay rest
          (activeDelete (activeInsert active c) c.threadId)).discarded } := by
  simp [getIdleValidConnection, hp]

theorem givc_destroyed_empty (now minDelay : Int) (idle active : List Conn) :
    (getIdleValidConnection now minDelay idle active).destroyed = [] := by
  induction idle generalizing active with
  | nil => rfl
  | cons c rest ih =>
    by_cases hp : passesValidation now minDelay c = true
    · rw [givc_cons_pass now minDelay c rest active hp]
    · rw [givc_cons_fail now minDelay c rest active (by simpa using hp)]
      exact ih _

theorem givc_discarded_fail (now minDelay : Int) (idle active : List Conn) :
    ∀ d ∈ (getIdleValidConnection now minDelay idle active).discarded,
      passesValidation now minDelay d = false := by
  induction idle generalizing active with
  | nil => intro d hd; simp [getIdleValidConnection] at hd
  | cons c rest ih =>
    intro d hd
    by_cases hp : passesValidation now minDelay c = true
    · rw [givc_cons_pass now minDelay c rest active hp] at hd
      simp at hd
    · have hpf : passesValidation now minDelay c = false := by simpa using hp
      rw [givc_cons_fail now minDelay c rest active hpf] at hd
      have hd' : d = c ∨ d ∈ (getIdleValidConnection now minDelay rest
          (activeDelete (activeInsert active c) c.threadId)).discarded := by
        simpa using hd
      rcases hd' with rfl | hd'
      · exact hpf
      · exact ih _ d hd'

theorem givc_shape (now minDelay : Int) (idle active : List Conn) :
    (∃ c, (getIdleValidConnection now minDelay idle active).found = some c ∧
       idle = (getIdleValidConnection now minDelay idle active).discarded ++
         c :: (getIdleValidConnection now minDelay idle active).idle ∧
       passesValidation now minDelay c = true) ∨
    ((getIdleValidConnection now minDelay idle active).found = none ∧
     (getIdleValidConnection now minDelay idle active).discarded = idle ∧
     (getIdleValidConnection now minDelay idle active).idle = []) := by
  induction idle generalizing active with
  | nil => exact Or.inr ⟨rfl, rfl, rfl⟩
  | cons c rest ih =>
    by_cases hp : passesValidation now minDelay c = true
    · rw [givc_cons_pass now minDelay c rest active hp]
      exact Or.inl ⟨c, rfl, by simp, hp⟩
    · have hpf : passesValidation now minDelay c = false := by simpa using hp
      rw [givc_cons_fail now minDelay c rest active hpf]
      rcases ih (activeDelete (activeInsert active c) c.threadId) with
        ⟨c2, hfound, hshape, hpass⟩ | ⟨hfound, hdisc, hidle⟩
      · exact Or.inl ⟨c2, hfound, congrArg (List.cons c) hshape, hpass⟩
      · exact Or.inr ⟨hfound, congrArg (List.cons c) hdisc, hidle⟩

theorem activeDelete_activeInsert (a : List Conn) (c : Conn) :
    activeDelete (activeInsert a c) c.threadId = activeDelete a c.threadId := by
  unfold activeInsert activeDelete
  rw [List.filter_append]
  simp [List.filter_filter]

theorem mem_map_of_activeDelete {x : Nat} {a : List Conn} {id : Nat}
    (hx : x ∈ (activeDelete a id).map Conn.threadId) :
    x ∈ a.map Conn.threadId := by
  rcases List.mem_map.mp hx with ⟨y, hy, hxy⟩
  exact List.mem_map.mpr ⟨y, List.mem_of_mem_filter hy, hxy⟩

theorem mem_map_activeInsert {x : Nat} (a : List Conn) (c : Conn)
    (hx : x ∈ (activeInsert a c).map Conn.threadId) :
    x ∈ a.map Conn.threadId ∨ x = c.threadId := by
  rw [activeInsert, List.map_append] at hx
  rcases List.mem_append.mp hx with hx | hx
  · exact Or.inl (mem_map_of_activeDelete hx)
  · simp at hx
    exact Or.inr hx

theorem givc_active_of_disjoint (now minDelay : Int) (idle active : List Conn)
    (hdisj : ∀ d ∈ idle, d.threadId ∉ active.map Conn.threadId) :
    (∀ c, (getIdleValidConnection now minDelay idle active).found = some c →
       (getIdleValidConnection now minDelay idle active).active =
         activeInsert active c) ∧
    ((getIdleValidConnection now minDelay idle active).found = none →
       (getIdleValidConnection now minDelay idle active).active = active) := by
  induction idle generalizing active with
  | nil =>
    refine ⟨fun c hc => ?_, fun _ => rfl⟩
    simp [getIdleValidConnection] at hc
  | cons c rest ih =>
    by_cases hp : passesValidation now minDelay c = true
    · rw [givc_cons_pass now minDelay c rest active hp]
      refine ⟨fun c2 hc2 => ?_, fun hn => ?_⟩
      · have hcc : c = c2 := by simpa using hc2
        rw [← hcc]
      · simp at hn
    · have hpf : passesValidation now minDelay c = false := by simpa using hp
      have hrestore : activeDelete (activeInsert active c) c.threadId = active := by
        rw [activeDelete_activeInsert]
        exact activeDelete_eq_self active c.threadId (fun d hd heq =>
          hdisj c (List.mem_cons_self c rest)
            (heq ▸ List.mem_map_of_mem Conn.threadId hd))
      rw [givc_cons_fail now minDelay c rest active hpf, hrestore]
      exact ih active (fun d hd => hdisj d (List.mem_cons_of_mem c hd))

/-- C4 counterexample: with `minDelayValidation = 0` the idle session
`cStale` is probed and its ping fails; it is discarded — absent from the
final Active Set — but the pool invokes no destroy on it: the log of destroy
calls made by the validation path is empty.  This refutes the claim that a
session whose liveness probe fails is destroyed. -/
theorem C4_counterexample :
    (getIdleValidConnection 200 0 [cStale] []).discarded = [cStale] ∧
    (getIdleValidConnection 200 0 [cStale] []).destroyed = [] ∧
    (getIdleValidConnection 200 0 [cStale] []).active = [] ∧
    (getIdleValidConnection 200 0 [cStale] []).found = none := by decide

/-- C4 (amended): during idle-set validation, every rejected candidate
failed its check and is removed from the Active Set, but the pool invokes no
destroy on it (it is merely dropped); validation proceeds front-to-back —
the discarded candidates are exactly the prefix of the Idle Set before the
first session that passes, or the whole Idle Set when none passes; and the
acquiring caller never observes the rejected candidates: `handleRequest`
either fulfils with the first valid session or falls through to the
creation/queueing miss branch. -/
theorem C4_validation_failures_absorbed (opts : Opts) (s : PoolSt) (now : Int)
    (tid : Nat) (sql values : Option String)
    (hopen : s.closed = false)
    (hdisj : ∀ d ∈ s.idle, d.threadId ∉ s.active.map Conn.threadId)
    (hnodup : (s.idle.map Conn.threadId).Nodup) :
    (getIdleValidConnection now opts.minDelayValidation s.idle s.active).destroyed
      = [] ∧
    (∀ d ∈ (getIdleValidConnection now opts.minDelayValidation s.idle
        s.active).discarded, passesValidation now opts.minDelayValidation d = false) ∧
    (∀ d ∈ (getIdleValidConnection now opts.minDelayValidation s.idle
        s.active).discarded,
      d.threadId ∉ (getIdleValidConnection now opts.minDelayValidation s.idle
        s.active).active.map Conn.threadId) ∧
    ((∃ c, (getIdleValidConnection now opts.minDelayValidation s.idle
          s.active).found = some c ∧
        s.idle = (getIdleValidConnection now opts.minDelayValidation s.idle
          s.active).discarded ++
          c :: (getIdleValidConnection now opts.minDelayValidation s.idle
            s.active).idle ∧
        passesValidation now opts.minDelayValidation c = true ∧
        (handleRequest opts now tid sql values s).1 = ReqOutcome.fulfilled c) ∨
     ((getIdleValidConnection now opts.minDelayValidation s.idle
          s.active).found = none ∧
      (getIdleValidConnection now opts.minDelayValidation s.idle
          s.active).discarded = s.idle ∧
      (handleRequest opts now tid sql values s).1 =
        ReqOutcome.queued ⟨tid, now + opts.acquireTimeout, sql, values⟩)) := by
  have hfail := givc_discarded_fail now opts.minDelayValidation s.idle s.active
  have hshape := givc_shape now opts.minDelayValidation s.idle s.active
  have hactive := givc_active_of_disjoint now opts.minDelayValidation s.idle
    s.active hdisj
  refine ⟨givc_destroyed_empty now opts.minDelayValidation s.idle s.active,
    hfail, ?_, ?_⟩
  · intro d hd hmem
    rcases hshape with ⟨c, hfound, hsh, hpass⟩ | ⟨hfound, hdisc, hidle⟩
    · rw [hactive.1 c hfound] at hmem
      rcases mem_map_activeInsert s.active c hmem with hmm | hmm
      · have hdidle : d ∈ s.idle := by
          rw [hsh]
          exact List.mem_append_left _ hd
        exact hdisj d hdidle hmm
      · have hmap : ((getIdleValidConnection now opts.minDelayValidation s.idle
            s.active).discarded.map Conn.threadId ++
            ((c :: (getIdleValidConnection now opts.minDelayValidation s.idle
              s.active).idle).map Conn.threadId)).Nodup := by
          rw [← List.map_append, ← hsh]
          exact hnodup
        have hdisj2 := (List.nodup_append.mp hmap).2.2
        exact hdisj2 (List.mem_map_of_mem Conn.threadId hd)
          (hmm ▸ (by simp : c.threadId ∈
            (c :: (getIdleValidConnection now opts.minDelayValidation s.idle
              s.active).idle).map Conn.threadId))
    · rw [hactive.2 hfound] at hmem
      have hdidle : d ∈ s.idle := by
        rw [← hdisc]
        exact hd
      exact hdisj d hdidle hmem
  · rcases hshape with ⟨c, hfound, hsh, hpass⟩ | ⟨hfound, hdisc, hidle⟩
    · refine Or.inl ⟨c, hfound, hsh, hpass, ?_⟩
      simp [handleRequest, hopen, hfound]
    · refine Or.inr ⟨hfound, hdisc, ?_⟩
      simp [handleRequest, hopen, hfound]

theorem C4_validation_failures_absorbed_witness :
    (getIdleValidConnection 200 (⟨2, 100, 0⟩ : Opts).minDelayValidation
        stValid.idle stValid.active).destroyed = [] ∧
    (∀ d ∈ (getIdleValidConnection 200 (⟨2, 100, 0⟩ : Opts).minDelayValidation
        stValid.idle stValid.active).discarded,
      passesValidation 200 (⟨2, 100, 0⟩ : Opts).minDelayValidation d = false) ∧
    (∀ d ∈ (getIdleValidConnection 200 (⟨2, 100, 0⟩ : Opts).minDelayValidation
        stValid.idle stValid.active).discarded,
      d.threadId ∉ (getIdleValidConnection 200
        (⟨2, 100, 0⟩ : Opts).minDelayValidation stValid.idle
        stValid.active).active.map Conn.threadId) ∧
    ((∃ c, (getIdleValidConnection 200 (⟨2, 100, 0⟩ : Opts).minDelayValidation
          stValid.idle stValid.active).found = some c ∧
        stValid.idle = (getIdleValidConnection 200
          (⟨2, 100, 0⟩ : Opts).minDelayValidation stValid.idle
          stValid.active).discarded ++
          c :: (getIdleValidConnection 200
            (⟨2, 100, 0⟩ : Opts).minDelayValidation stValid.idle
            stValid.active).idle ∧
        passesValidation 200 (⟨2, 100, 0⟩ : Opts).minDelayValidation c = true ∧
        (handleRequest ⟨2, 100, 0⟩ 200 9 none none stValid).1 =
          ReqOutcome.fulfilled c) ∨
     ((getIdleValidConnection 200 (⟨2, 100, 0⟩ : Opts).minDelayValidation
          stValid.idle stValid.active).found = none ∧
      (getIdleValidConnection 200 (⟨2, 100, 0⟩ : Opts).minDelayValidation
          stValid.idle stValid.active).discarded = stValid.idle ∧
      (handleRequest ⟨2, 100, 0⟩ 200 9 none none stValid).1 =
        ReqOutcome.queued ⟨9, 200 + (⟨2, 100, 0⟩ : Opts).acquireTimeout,
          none, none⟩)) :=
  C4_validation_failures_absorbed ⟨2, 100, 0⟩ stValid 200 9 none none rfl
    (by decide) (by decide)

/-- C5 counterexample: two pools configured with different `acquireTimeout`
values (100 and 200 ms) produce the very same rejection error value on
waiter timeout — the error is the constant built at `pool.js:236-244` from
a fixed message and error number, so it cannot carry the configured timeout
value. -/
theorem C5_counterexample :
    (100 : Int) ≠ 200 ∧
    (rejectTimeout ⟨7, 100, none, none⟩
        (handleRequest ⟨1, 100, 0⟩ 0 7 none none initSt).2).1 =
      TimeoutOutcome.rejectedHead ⟨7, 100, none, none⟩ acquireTimeoutError ∧
    (rejectTimeout ⟨7, 200, none, none⟩
        (handleRequest ⟨1, 200, 0⟩ 0 7 none none initSt).2).1 =
      TimeoutOutcome.rejectedHead ⟨7, 200, none, none⟩ acquireTimeoutError := by
  decide

/-- C5 (amended): when the timer fires for the waiter at the queue head, the
waiter is removed from the queue and rejected with the pool's acquire-timeout
error — whose error number `ER_GET_CONNECTION_TIMEOUT` makes it
programmatically distinguishable from the pool-closed error — and a waiter
stacked on a miss records the deadline `now + acquireTimeout`; the error
value itself is a constant and does not carry the configured timeout. -/
theorem C5_acquire_timeout (opts : Opts) (s : PoolSt) (t : PoolTask)
    (rest : List PoolTask) (htasks : s.tasks = t :: rest) :
    (rejectTimeout t s).1 = TimeoutOutcome.rejectedHead t acquireTimeoutError ∧
    (rejectTimeout t s).2.tasks = rest ∧
    (rejectTimeout t s).2.timer = none ∧
    acquireTimeoutError.errno = ER_GET_CONNECTION_TIMEOUT ∧
    ER_GET_CONNECTION_TIMEOUT ≠ ER_POOL_ALREADY_CLOSED ∧
    (∀ now : Int, ∀ tid : Nat, ∀ sql values : Option String,
      s.closed = false → s.idle = [] →
      (handleRequest opts now tid sql values s).1 =
        ReqOutcome.queued ⟨tid, now + opts.acquireTimeout, sql, values⟩) := by
  refine ⟨?_, ?_, ?_, rfl, by decide, ?_⟩
  · simp [rejectTimeout, htasks]
  · simp [rejectTimeout, htasks]
  · simp [rejectTimeout, htasks]
  · intro now tid sql values hopen hidle
    simp [handleRequest, hopen, hidle, getIdleValidConnection]

theorem C5_acquire_timeout_witness :
    (rejectTimeout tA stEmptyIdle).1 =
      TimeoutOutcome.rejectedHead tA acquireTimeoutError ∧
    (rejectTimeout tA stEmptyIdle).2.tasks = [] ∧
    (rejectTimeout tA stEmptyIdle).2.timer = none ∧
    acquireTimeoutError.errno = ER_GET_CONNECTION_TIMEOUT ∧
    ER_GET_CONNECTION_TIMEOUT ≠ ER_POOL_ALREADY_CLOSED ∧
    (∀ now : Int, ∀ tid : Nat, ∀ sql values : Option String,
      stEmptyIdle.closed = false → stEmptyIdle.idle = [] →
      (handleRequest ⟨1, 100, 0⟩ now tid sql values stEmptyIdle).1 =
        ReqOutcome.queued ⟨tid, now + (⟨1, 100, 0⟩ : Opts).acquireTimeout,
          sql, values⟩) :=
  C5_acquire_timeout ⟨1, 100, 0⟩ stEmptyIdle tA [] rfl

/-- C7: for every query executed through the pool — immediately via
`useConnection` or via a queued waiter in `handleTaskQueue` — the obtained
session is released (`releaseWithoutError`) as the first action, before the
outcome is propagated, on query success and on query failure alike; the
propagated outcome is the query's outcome untouched (the same result value
or the same error value); and the waiter path performs exactly the same
action sequence as the immediate path. -/
theorem C7_unconditional_release_untouched_error (c : Conn) (q : String)
    (tid : Nat) (dl : Int) (vs : Option String) (qr : Except PoolErr String) :
    (useConnectionPromise c (some q) qr).head? =
      some (Action.releaseConn c.threadId) ∧
    (useConnectionPromise c (some q) qr).getLast? =
      some (match qr with
            | .ok res => Action.resolvewith res
            | .error e => Action.rejectwith e) ∧
    (useConnectionPromise c (some q) qr).length = 2 ∧
    serveTaskActions ⟨tid, dl, some q, vs⟩ c qr =
      useConnectionPromise c (some q) qr := by
  cases qr <;> simp [useConnectionPromise, serveTaskActions]

theorem ClosedQuiet_step {opts : Opts} {s : PoolSt} {e : Ev} {s' : PoolSt}
    (h : ClosedQuiet s) (hstep : Step opts s e s') :
    ClosedQuiet s' ∧ (∀ t c, e ≠ Ev.serveTask t c) ∧
    (∀ t, e ≠ Ev.serveCrash t) ∧ (∀ t, e ≠ Ev.timeoutHead t) ∧
    (∀ t, e ≠ Ev.timeoutFatal t) := by
  obtain ⟨hc, ht, hm, hi⟩ := h
  cases hstep with
  | validateShift c rest hopen hidle => exact absurd hc (closed_ne_true hopen)
  | validateDrop id =>
    exact ⟨⟨hc, ht, hm, hi⟩, fun t c h => Ev.noConfusion h,
      fun t h => Ev.noConfusion h, fun t h => Ev.noConfusion h,
      fun t h => Ev.noConfusion h⟩
  | requestMiss now tid sql values hopen hidle =>
    exact absurd hc (closed_ne_true hopen)
  | checkPoolGrow hflag hroom =>
    exact ⟨⟨hc, ht, hm, hi⟩, fun t c h => Ev.noConfusion h,
      fun t h => Ev.noConfusion h, fun t h => Ev.noConfusion h,
      fun t h => Ev.noConfusion h⟩
  | beginCreation hsched =>
    exact ⟨⟨hc, ht, hm, hi⟩, fun t c h => Ev.noConfusion h,
      fun t h => Ev.noConfusion h, fun t h => Ev.noConfusion h,
      fun t h => Ev.noConfusion h⟩
  | creationDoneOpen c hconn hopen => exact absurd hc (closed_ne_true hopen)
  | creationDoneClosed hconn hclosed =>
    exact ⟨⟨hc, ht, hm, hi⟩, fun t c h => Ev.noConfusion h,
      fun t h => Ev.noConfusion h, fun t h => Ev.noConfusion h,
      fun t h => Ev.noConfusion h⟩
  | creationFailed hconn =>
    exact ⟨⟨hc, ht, hm, hi⟩, fun t c h => Ev.noConfusion h,
      fun t h => Ev.noConfusion h, fun t h => Ev.noConfusion h,
      fun t h => Ev.noConfusion h⟩
  | releaseOk c now hmem =>
    have hs' : (connEnd true now c s).1 =
        { s with active := activeDelete s.active c.threadId } := by
      simp [connEnd, hc]
    rw [hs']
    exact ⟨⟨hc, ht, hm, hi⟩, fun t c2 h => Ev.noConfusion h,
      fun t h => Ev.noConfusion h, fun t h => Ev.noConfusion h,
      fun t h => Ev.noConfusion h⟩
  | releaseUncertain c now hmem =>
    exact ⟨⟨hc, ht, hm, hi⟩, fun t c2 h => Ev.noConfusion h,
      fun t h => Ev.noConfusion h, fun t h => Ev.noConfusion h,
      fun t h => Ev.noConfusion h⟩
  | destroyConn id =>
    exact ⟨⟨hc, ht, hm, hi⟩, fun t c h => Ev.noConfusion h,
      fun t h => Ev.noConfusion h, fun t h => Ev.noConfusion h,
      fun t h => Ev.noConfusion h⟩
  | connError c =>
    refine ⟨⟨hc, ht, hm, ?_⟩, fun t c2 h => Ev.noConfusion h,
      fun t h => Ev.noConfusion h, fun t h => Ev.noConfusion h,
      fun t h => Ev.noConfusion h⟩
    show evictFromIdle c.threadId s.idle = []
    rw [hi]
    rfl
  | serveTask now t rest c irest htasks hidle =>
    exact absurd (ht.symm.trans htasks) (by simp)
  | serveCrash t rest htasks hidle =>
    exact absurd (ht.symm.trans htasks) (by simp)
  | timeoutHead now t rest htimer htasks =>
    exact absurd (ht.symm.trans htasks) (by simp)
  | timeoutFatal t htimer hhead =>
    exact absurd (hm.symm.trans htimer) (by simp)
  | closePool hopen => exact absurd hc (closed_ne_true hopen)

/-- C8: a first `close()` call clears the timer, sets the closed flag,
drains the Idle Set invoking `end` exactly once on every session that was
idle at call time (the ended sessions are exactly the idle list, in order),
and clears the Waiter Queue; a second `close()` rejects with the pool-closed
error and terminates no session.  The discarded waiters are never settled:
from the resulting quiescent closed state, no scheduler step is a
waiter-service, waiter-crash or timer-fire event, so the queued waiters
neither resolve nor reject. -/
theorem C8_close_semantics (opts : Opts) (s : PoolSt)
    (hopen : s.closed = false) (hnd : s.idle.Nodup) :
    (poolEnd s).2.1 = Except.ok () ∧
    (poolEnd s).2.2 = s.idle ∧
    (∀ c ∈ s.idle, (poolEnd s).2.2.count c = 1) ∧
    (poolEnd (poolEnd s).1).2.1 = Except.error poolClosedError ∧
    (poolEnd (poolEnd s).1).2.2 = [] ∧
    ClosedQuiet (poolEnd s).1 ∧
    (∀ s1 e s2, ClosedQuiet s1 → Step opts s1 e s2 →
      ClosedQuiet s2 ∧ (∀ t c, e ≠ Ev.serveTask t c) ∧
      (∀ t, e ≠ Ev.serveCrash t) ∧ (∀ t, e ≠ Ev.timeoutHead t) ∧
      (∀ t, e ≠ Ev.timeoutFatal t)) := by
  have hpE : poolEnd s =
      ({ s with timer := none, closed := true, idle := [], tasks := [] },
       Except.ok (), s.idle) := by
    simp [poolEnd, hopen]
  refine ⟨by rw [hpE], by rw [hpE], ?_, ?_, ?_, ?_, ?_⟩
  · intro c hcmem
    rw [hpE]
    exact List.count_eq_one_of_mem hnd hcmem
  · rw [hpE]
    simp [poolEnd]
  · rw [hpE]
    simp [poolEnd]
  · rw [hpE]
    exact ⟨rfl, rfl, rfl, rfl⟩
  · intro s1 e s2 hq hstep
    exact ClosedQuiet_step hq hstep

theorem C8_close_semantics_witness :
    (poolEnd stRelease).2.1 = Except.ok () ∧
    (poolEnd stRelease).2.2 = stRelease.idle ∧
    (∀ c ∈ stRelease.idle, (poolEnd stRelease).2.2.count c = 1) ∧
    (poolEnd (poolEnd stRelease).1).2.1 = Except.error poolClosedError ∧
    (poolEnd (poolEnd stRelease).1).2.2 = [] ∧
    ClosedQuiet (poolEnd stRelease).1 ∧
    (∀ s1 e s2, ClosedQuiet s1 → Step ⟨2, 100, 0⟩ s1 e s2 →
      ClosedQuiet s2 ∧ (∀ t c, e ≠ Ev.serveTask t c) ∧
      (∀ t, e ≠ Ev.serveCrash t) ∧ (∀ t, e ≠ Ev.timeoutHead t) ∧
      (∀ t, e ≠ Ev.timeoutFatal t)) :=
  C8_close_semantics ⟨2, 100, 0⟩ stRelease rfl (by decide)

theorem resetTimeout_arms_head (now : Int) (ts : List PoolTask) :
    (resetTimeoutToNextTask now ts).2.1 = (resetTimeoutToNextTask now ts).1.head? := by
  induction ts with
  | nil => rfl
  | cons t rest ih =>
    by_cases h : t.timeout < now
    · simp [resetTimeoutToNextTask, h, ih]
    · simp [resetTimeoutToNextTask, h]

/-- C9: when the armed timer fires for a task that is no longer the queue
head, `rejectTimeout` takes the fatal branch (the thrown
"Rejection by timeout without task" assertion) and rejects no waiter — the
queue is left untouched; when the fired task is still the head, the fatal
branch is not taken and the head is rejected normally.  The rearm loop
maintains the invariant the claim relies on: it always arms the timer for
the head of the resulting queue. -/
theorem C9_stale_timer_fatal (task : PoolTask) (s : PoolSt) (now : Int)
    (ts : List PoolTask) :
    (s.tasks.head? ≠ some task →
      (rejectTimeout task s).1 = TimeoutOutcome.fatalThrow ∧
      (rejectTimeout task s).2.tasks = s.tasks) ∧
    (s.tasks.head? = some task →
      (rejectTimeout task s).1 =
        TimeoutOutcome.rejectedHead task acquireTimeoutError) ∧
    (resetTimeoutToNextTask now ts).2.1 =
      (resetTimeoutToNextTask now ts).1.head? := by
  refine ⟨?_, ?_, resetTimeout_arms_head now ts⟩
  · intro hne
    rcases htasks : s.tasks with _ | ⟨hd, rest⟩
    · exact ⟨by simp [rejectTimeout, htasks], by simp [rejectTimeout, htasks]⟩
    · have hhd : ¬(hd = task) := by
        intro h
        exact hne (by rw [htasks, h]; rfl)
      exact ⟨by simp [rejectTimeout, htasks, hhd],
             by simp [rejectTimeout, htasks, hhd]⟩
  · intro heq
    rcases htasks : s.tasks with _ | ⟨hd, rest⟩
    · rw [htasks] at heq
      simp at heq
    · rw [htasks] at heq
      simp at heq
      simp [rejectTimeout, htasks, heq]

theorem C9_stale_timer_fatal_witness :
    ((rejectTimeout tB stEmptyIdle).1 = TimeoutOutcome.fatalThrow ∧
     (rejectTimeout tB stEmptyIdle).2.tasks = stEmptyIdle.tasks) ∧
    (rejectTimeout tA stEmptyIdle).1 =
      TimeoutOutcome.rejectedHead tA acquireTimeoutError :=
  ⟨(C9_stale_timer_fatal tB stEmptyIdle 0 []).1 (by decide),
   (C9_stale_timer_fatal tA stEmptyIdle 0 []).2.1 (by decide)⟩

/-- C10: `handleTaskQueue` pops a waiter from the queue before checking
whether an idle session exists and dereferences the popped idle connection
unconditionally.  With an idle connection present, the popped waiter is
served that connection (moved into the Active Set); but in any state with a
queued waiter and an empty Idle Set, the run throws (`crashed`): the popped
waiter is removed from the queue with no resolution and no rejection (the
run's rejected-task log is empty), so the service is safe only under the
precondition that the Idle Set is non-empty whenever the Waiter Queue is. -/
theorem C10_service_requires_idle (now : Int) (s : PoolSt) (t : PoolTask)
    (rest : List PoolTask) (htasks : s.tasks = t :: rest) :
    (∀ c irest, s.idle = c :: irest →
      (handleTaskQueue now s).1 = ServeOutcome.served t c ∧
      (handleTaskQueue now s).2.1.active = activeInsert s.active c) ∧
    (s.idle = [] →
      (handleTaskQueue now s).1 = ServeOutcome.crashed t ∧
      (handleTaskQueue now s).2.1.tasks = rest ∧
      (handleTaskQueue now s).2.1.timer = none ∧
      (handleTaskQueue now s).2.2 = []) := by
  refine ⟨?_, ?_⟩
  · intro c irest hidle
    refine ⟨?_, ?_⟩ <;> simp [handleTaskQueue, htasks, hidle]
  · intro hidle
    refine ⟨?_, ?_, ?_, ?_⟩ <;> simp [handleTaskQueue, htasks, hidle]

theorem C10_service_requires_idle_witness :
    (∀ c irest, stEmptyIdle.idle = c :: irest →
      (handleTaskQueue 0 stEmptyIdle).1 = ServeOutcome.served tA c ∧
      (handleTaskQueue 0 stEmptyIdle).2.1.active =
        activeInsert stEmptyIdle.active c) ∧
    (stEmptyIdle.idle = [] →
      (handleTaskQueue 0 stEmptyIdle).1 = ServeOutcome.crashed tA ∧
      (handleTaskQueue 0 stEmptyIdle).2.1.tasks = [] ∧
      (handleTaskQueue 0 stEmptyIdle).2.1.timer = none ∧
      (handleTaskQueue 0 stEmptyIdle).2.2 = []) :=
  C10_service_requires_idle 0 stEmptyIdle tA [] rfl

end MariaPool
